import Mathlib

/-!
Verification of the `asyncawait` concurrency-limiting mod
(`src/mods/maxConcurrency.js`) and async-iterator protocol, as a shallow
embedding in Lean 4.

JavaScript numbers are embedded as `ℚ` (all arithmetic in this code stays
exact), the uninitialised `null` state of the module-level variables as
`Option`, and the mutable object graph of the mod as an explicit `World`
state with total-function heaps indexed by allocation counters.
-/

namespace AsyncAwait

/-! ## The global semaphore (maxConcurrency.js, lines 77-104)

The queued callbacks are kept abstract (type `α`); invoking a callback is
recorded by returning it in the second component, so "the semaphore invoked
`fn` synchronously during this operation" is `fn ∈ result.2`. -/

/-- The module-level semaphore state: `_size`, `_avail` (both initially
JavaScript `null`, modelled as `none`) and the FIFO `_queued` array. -/
structure SemState (α : Type) where
  _size : Option ℚ
  _avail : Option ℚ
  _queued : List α
deriving Repr, DecidableEq

/-- JavaScript truthiness of the comparison `_avail > 0`: `null > 0` is
`false`, a number compares numerically. -/
def availPos : Option ℚ → Bool
  | some a => decide (0 < a)
  | none => false

/-- `enterSemaphore(fn)`: if `_avail > 0`, decrement `_avail` and invoke
`fn` synchronously; else push `fn` onto the back of `_queued`. -/
def enterSemaphore {α : Type} (fn : α) (s : SemState α) : SemState α × List α :=
  if availPos s._avail then
    ({ s with _avail := some (s._avail.getD 0 - 1) }, [fn])
  else
    ({ s with _queued := s._queued ++ [fn] }, [])

/-- `leaveSemaphore()`: if `_queued` is non-empty, shift the oldest callback
off the front and invoke it (`_avail` untouched); else increment `_avail`
(JavaScript `++null` yields `1`, hence the `getD 0`). -/
def leaveSemaphore {α : Type} (s : SemState α) : SemState α × List α :=
  match s._queued with
  | fn :: rest => ({ s with _queued := rest }, [fn])
  | [] => ({ s with _avail := some (s._avail.getD 0 + 1) }, [])

/-- `semaphoreSize(n)`: when `n` is truthy (a number other than `0`;
`undefined` is modelled as `none`), set `_avail += (n - _size)` and
`_size = n` (with JavaScript `null` coercing to `0` in arithmetic);
always return the (possibly updated) `_size`. -/
def semaphoreSize {α : Type} (n : Option ℚ) (s : SemState α) : SemState α × Option ℚ :=
  match n with
  | some k =>
    if k ≠ 0 then
      let s' : SemState α :=
        { s with _avail := some (s._avail.getD 0 + (k - s._size.getD 0)),
                 _size := some k }
      (s', s'._size)
    else (s, s._size)
  | none => (s, s._size)

/-- The spec's semaphore invariant: queue non-empty ⇒ available == 0. -/
def semInv {α : Type} (s : SemState α) : Prop :=
  s._queued ≠ [] → s._avail = some 0

instance {α : Type} [DecidableEq α] (s : SemState α) : Decidable (semInv s) := by
  unfold semInv; infer_instance

/-! ## The `maxConcurrency` factory (maxConcurrency.js, lines 10-22) -/

/-- A JavaScript value passed as the capacity argument: either a number or
any non-number value. -/
inductive JSVal where
  | num (q : ℚ)
  | other
deriving Repr, DecidableEq

/-- Modelled from the spec: `_.isNumber` from the util module (which is not
under `src/`) — true exactly for numbers. -/
def isNumber : JSVal → Bool
  | .num _ => true
  | .other => false

/-- The comparison `value < 1`. Only reached when `value` is a number
(the `!_.isNumber(value)` disjunct short-circuits otherwise). -/
def jsLtOne : JSVal → Bool
  | .num q => decide (q < 1)
  | .other => false

/-- Numeric value of a `JSVal` known to be a number. -/
def toNum : JSVal → ℚ
  | .num q => q
  | .other => 0

/-- The synchronous outcome of calling `maxConcurrency(value)`:
the validation throw, the double-application throw, or success
(returning the mod function). -/
inductive MCOutcome where
  | validationError
  | configurationError
  | ok
deriving Repr, DecidableEq

/-- `maxConcurrency(value)`: throw unless `value` is a number with
`value ≥ 1`; throw if `semaphoreSize()` is already non-`null`; otherwise
set the semaphore size to `value` and return the mod. -/
def maxConcurrency {α : Type} (value : JSVal) (s : SemState α) :
    MCOutcome × SemState α :=
  if !(isNumber value) || jsLtOne value then (.validationError, s)
  else if (semaphoreSize none s).2 ≠ none then (.configurationError, s)
  else (.ok, (semaphoreSize (some (toNum value)) s).1)

/-! ## The mod itself (maxConcurrency.js, lines 23-74)

The mod's coroutine objects form a mutable object graph: the placeholder's
`enter`/`leave` properties are reassigned after the fact, and its `context`
object is shared by reference with the real coroutine. We embed this with
explicit state passing: a `World` holding two total-function heaps (context
objects and coroutine objects, indexed by allocation counters), the global
semaphore (its queued closures defunctionalised as `Pending` records of the
variables they capture), and append-only logs recording every call the mod
makes into the inner pipeline. -/

/-- A value stored in a coroutine's context bag. -/
inductive Val where
  | vnum (n : ℤ)
  | vstr (s : String)
deriving Repr, DecidableEq

/-- A context bag: string keys to values (a JavaScript object). -/
abbrev Ctx := List (String × Val)

/-- The argument tuple `(protocol, bodyFunc, bodyThis, bodyArgs)` of
`acquireCoro`, kept opaque (the mod only forwards it). -/
structure AcqArgs where
  protocol : ℕ
  bodyFunc : ℕ
  bodyThis : ℕ
  bodyArgs : ℕ
deriving Repr, DecidableEq

/-- The `(error, value)` argument pair of `enter`, kept opaque. -/
structure EV where
  error : Option ℕ
  value : Option ℕ
deriving Repr, DecidableEq

/-- What a queued semaphore callback captured: the closure pushed by the
placeholder's `enter` closes over the placeholder `co`, the `acquireCoro`
arguments, and the `(error, value)` pair. -/
structure Pending where
  coId : ℕ
  args : AcqArgs
  ev : EV
deriving Repr, DecidableEq

/-- The current target of a coroutine object's `enter`/`leave` property:
the placeholder's original `enter` closure (closing over the placeholder
itself and the acquisition arguments), a real inner-pipeline coroutine's
method, or absent (the placeholder is created with no `leave` property). -/
inductive ETarget where
  | placeholderE (selfId : ℕ) (args : AcqArgs)
  | realE (innerId : ℕ)
  | undefE
deriving Repr, DecidableEq

/-- A coroutine object: its `inSemaphore` marker, a reference to its
`context` object, and its current `enter`/`leave` targets. -/
structure CoObj where
  inSemaphore : Bool
  contextRef : ℕ
  enterT : ETarget
  leaveT : ETarget
deriving Repr, DecidableEq

instance : Inhabited CoObj := ⟨⟨false, 0, .undefE, .undefE⟩⟩

/-- The whole mutable state the mod touches: the global semaphore, the two
object heaps, the logs of calls into the inner pipeline, and the pipeline's
notion of the currently executing coroutine. -/
structure World where
  sem : SemState Pending
  ctxHeap : ℕ → Ctx
  ctxNext : ℕ
  coHeap : ℕ → CoObj
  coNext : ℕ
  innerAcq : List AcqArgs
  innerEnterLog : List (ℕ × EV)
  innerReleaseLog : List ℕ
  current : Option ℕ

/-- Read a coroutine object off the heap. -/
def World.coObj (w : World) (i : ℕ) : CoObj := w.coHeap i

/-- Overwrite a coroutine object on the heap. -/
def World.setCo (w : World) (i : ℕ) (c : CoObj) : World :=
  { w with coHeap := fun j => if j = i then c else w.coHeap j }

/-- Modelled from the spec: the inner pipeline's `acquireCoro` (the pipeline
framework is not under `src/`). Per §4.1 it synchronously returns a fresh
coroutine — with a fresh empty context and its own `enter`/`leave` methods —
without starting body execution; the call is recorded in `innerAcq`. -/
def innerAcquireCoro (w : World) (args : AcqArgs) : ℕ × World :=
  (w.coNext,
   { w with
     ctxHeap := fun j => if j = w.ctxNext then [] else w.ctxHeap j,
     ctxNext := w.ctxNext + 1,
     coHeap := fun j => if j = w.coNext then
         ⟨false, w.ctxNext, .realE w.coNext, .realE w.coNext⟩
       else w.coHeap j,
     coNext := w.coNext + 1,
     innerAcq := w.innerAcq ++ [args] })

/-- Modelled from the spec: invoking a real (inner-pipeline) coroutine's
`enter(error, value)`, recorded in `innerEnterLog`. -/
def innerEnter (w : World) (c : ℕ) (ev : EV) : World :=
  { w with innerEnterLog := w.innerEnterLog ++ [(c, ev)] }

/-- Modelled from the spec: the inner pipeline's `releaseCoro`, recorded in
`innerReleaseLog`. -/
def innerReleaseCoro (w : World) (c : ℕ) : World :=
  { w with innerReleaseLog := w.innerReleaseLog ++ [c] }

/-- The final `co.enter(error, value)` call inside the semaphore callback
(line 57): a property lookup on `co` followed by a call. At that point
`co.enter` has just been rebound to the real coroutine's `enter` (line 46),
so only the `realE` target is reachable here; the dispatch of a still-unbound
placeholder `enter` is `co_enter` below. -/
def coEnterDispatch (w : World) (coId : ℕ) (ev : EV) : World :=
  match (w.coObj coId).enterT with
  | .realE c => innerEnter w c ev
  | _ => w

/-- The body of the closure passed to `enterSemaphore` by the placeholder's
`enter` (lines 40-57), run when the semaphore grants the slot: acquire the
real coroutine from the pipeline, rebind `co.enter`/`co.leave` to it, share
the placeholder's context object into it, mark it `inSemaphore`, and invoke
`co.enter(error, value)`. -/
def runPending (w : World) (p : Pending) : World :=
  let r := innerAcquireCoro w p.args
  let c := r.1
  let w1 := r.2
  let w2 := w1.setCo p.coId
    { w1.coObj p.coId with
      enterT := (w1.coObj c).enterT, leaveT := (w1.coObj c).leaveT }
  let w3 := w2.setCo c { w2.coObj c with contextRef := (w2.coObj p.coId).contextRef }
  let w4 := w3.setCo c { w3.coObj c with inSemaphore := true }
  coEnterDispatch w4 p.coId p.ev

/-- `enterSemaphore` at the world level: the state transition plus running
the callback when it is invoked synchronously. -/
def enterSemaphoreW (w : World) (p : Pending) : World :=
  let r := enterSemaphore p w.sem
  let w' := { w with sem := r.1 }
  match r.2 with
  | [q] => runPending w' q
  | _ => w'

/-- `leaveSemaphore` at the world level: the state transition plus running
the dequeued callback when there was one. -/
def leaveSemaphoreW (w : World) : World :=
  let r := leaveSemaphore w.sem
  let w' := { w with sem := r.1 }
  match r.2 with
  | [q] => runPending w' q
  | _ => w'

/-- Invoking a coroutine handle's `enter(error, value)`: dispatch on the
object's current `enter` target. A placeholder's `enter` (lines 38-58)
enters the semaphore with the closure capturing `co`, the acquisition
arguments and `(error, value)`; a rebound handle goes straight to the real
coroutine; calling the absent `leave`-style target does nothing to model. -/
def co_enter (w : World) (coId : ℕ) (ev : EV) : World :=
  match (w.coObj coId).enterT with
  | .placeholderE selfId args => enterSemaphoreW w ⟨selfId, args, ev⟩
  | .realE c => innerEnter w c ev
  | .undefE => w

/-- The mod's `acquireCoro` (lines 26-60): nested acquisitions (a coroutine
is already current) delegate straight to the inner pipeline; top-level
acquisitions return a placeholder coroutine with `inSemaphore: true`, a
fresh empty `context`, an `enter` that waits on the semaphore, and no
`leave`. -/
def acquireCoro (w : World) (args : AcqArgs) : ℕ × World :=
  if w.current.isSome then innerAcquireCoro w args
  else
    (w.coNext,
     { w with
       ctxHeap := fun j => if j = w.ctxNext then [] else w.ctxHeap j,
       ctxNext := w.ctxNext + 1,
       coHeap := fun j => if j = w.coNext then
           ⟨true, w.ctxNext, .placeholderE w.coNext args, .undefE⟩
         else w.coHeap j,
       coNext := w.coNext + 1 })

/-- The mod's `releaseCoro` (lines 63-72): if the coroutine is marked
`inSemaphore`, clear the marker and leave the semaphore; in all cases
delegate to the inner pipeline's `releaseCoro`. -/
def releaseCoro (w : World) (coId : ℕ) : World :=
  if (w.coObj coId).inSemaphore then
    let w1 := w.setCo coId { w.coObj coId with inSemaphore := false }
    let w2 := leaveSemaphoreW w1
    innerReleaseCoro w2 coId
  else innerReleaseCoro w coId

/-- Reading `co.context[k]` through a coroutine handle. -/
def coCtxGet (w : World) (coId : ℕ) (k : String) : Option Val :=
  (w.ctxHeap ((w.coObj coId).contextRef)).lookup k

/-- JavaScript property assignment on a context object. -/
def ctxSetKey : Ctx → String → Val → Ctx
  | [], k, v => [(k, v)]
  | (k', v') :: rest, k, v =>
    if k' = k then (k, v) :: rest else (k', v') :: ctxSetKey rest k v

/-- Writing `co.context[k] = v` through a coroutine handle: mutates the
referenced context object in place. -/
def coCtxSet (w : World) (coId : ℕ) (k : String) (v : Val) : World :=
  let r := (w.coObj coId).contextRef
  { w with ctxHeap := fun j => if j = r then ctxSetKey (w.ctxHeap r) k v else w.ctxHeap j }

/-- A world to instantiate witnesses at: fresh heaps, a size-1 semaphore
with its slot free, and no coroutine current. -/
def w0 : World :=
  { sem := ⟨some 1, some 1, []⟩
    ctxHeap := fun _ => []
    ctxNext := 0
    coHeap := fun _ => default
    coNext := 0
    innerAcq := []
    innerEnterLog := []
    innerReleaseLog := []
    current := none }

/-- A concrete argument tuple for witnesses. -/
def args0 : AcqArgs := ⟨0, 0, 0, 0⟩

/-- A concrete `(error, value)` pair for witnesses. -/
def ev0 : EV := ⟨none, none⟩

/-- The world after one top-level acquisition in `w0`: coroutine 0 is a
placeholder whose `enter` has not yet been invoked. -/
def wP : World := (acquireCoro w0 args0).2

/-- The world after additionally invoking the placeholder's `enter`:
coroutine 1 is the real coroutine, marked `inSemaphore`. -/
def wB : World := co_enter wP 0 ev0

/-- A concrete context key for witnesses. -/
def kx : String := "x"

/-- A concrete context value for witnesses. -/
def v7 : Val := .vnum 7

/-! ## The async-iterator protocol (spec §4.3)

The iterable implementation is not under `src/` (only its test suite,
`test/async.iterable.thunk.ts`, is), so the protocol is modelled from the
spec. -/

/-- Modelled from the spec: the IterationExhaustedError delivered when
iteration is driven past Done/Failed. -/
inductive IterErr where
  | iterationExhausted
deriving Repr, DecidableEq

/-- Modelled from the spec (§4.3): the iterator's state over a body that
yields a fixed sequence of values and then returns — the yields still to be
delivered, and whether the iteration has reached Done. -/
structure IterSt where
  remaining : List Val
  finished : Bool
deriving Repr, DecidableEq

/-- Modelled from the spec (§4.3): the outcome one invocation of a `next()`
thunk delivers through the completion channel, with the successor state:
a yielded value V gives `(null, {done:false, value:V})`; the returned value
R gives `(null, {done:true, value:R})`; any invocation after that fails
with IterationExhaustedError. -/
def iterNext (ret : Val) (s : IterSt) :
    (Option IterErr × Option (Bool × Val)) × IterSt :=
  if s.finished then ((some .iterationExhausted, none), s)
  else
    match s.remaining with
    | v :: rest => ((none, some (false, v)), ⟨rest, false⟩)
    | [] => ((none, some (true, ret)), ⟨[], true⟩)

/-- The outcomes of `n` successive `next()` invocations, in order. -/
def iterRun (ret : Val) : IterSt → ℕ → List (Option IterErr × Option (Bool × Val))
  | _, 0 => []
  | s, n + 1 =>
    ((iterNext ret s).1) :: iterRun ret (iterNext ret s).2 n

/-- The body of the C7 scenario: yields 111, 222, 333, then returns
the string value below. -/
def yields111 : List Val := [.vnum 111, .vnum 222, .vnum 333]

/-- The return value of the C7 scenario's body. -/
def doneV : Val := .vstr ("done")

end AsyncAwait

namespace AsyncAwait

/-! ## Theorems: semaphore semantics -/

/-- C1: `enterSemaphore(fn)` with `available > 0` decrements `available` and
invokes `fn` synchronously; otherwise it appends `fn` to the queue.
`leaveSemaphore()` with a non-empty queue removes the oldest queued callback
and invokes it, leaving `available` unchanged; with an empty queue it
increments `available` by one. -/
theorem semaphore_enter_leave_spec {α : Type} (s : SemState α) (fn : α) (a : ℚ)
    (ha : s._avail = some a) :
    (0 < a → enterSemaphore fn s = ({ s with _avail := some (a - 1) }, [fn])) ∧
    (¬ 0 < a → enterSemaphore fn s = ({ s with _queued := s._queued ++ [fn] }, [])) ∧
    (∀ f rest, s._queued = f :: rest →
      leaveSemaphore s = ({ s with _queued := rest }, [f])) ∧
    (s._queued = [] → leaveSemaphore s = ({ s with _avail := some (a + 1) }, [])) := by
  refine ⟨?_, ?_, ?_, ?_⟩
  · intro hpos
    simp [enterSemaphore, availPos, ha, hpos]
  · intro hnpos
    simp [enterSemaphore, availPos, ha, hnpos]
  · intro f rest hq
    simp [leaveSemaphore, hq]
  · intro hq
    simp [leaveSemaphore, hq, ha]

/-- Witness for C1 at concrete inputs: entering with one slot free invokes
the callback and leaves none free; leaving with a queued callback hands it
the slot. -/
theorem semaphore_enter_leave_spec_witness :
    ((0 : ℚ) < 1 →
      enterSemaphore 5 (⟨some 1, some 1, []⟩ : SemState ℕ) =
        (⟨some 1, some 0, []⟩, [5])) ∧
    leaveSemaphore (⟨some 1, some 0, [7, 9]⟩ : SemState ℕ) =
      (⟨some 1, some 0, [9]⟩, [7]) := by
  constructor
  · intro h
    have := (semaphore_enter_leave_spec (⟨some 1, some 1, []⟩ : SemState ℕ) 5 1 rfl).1 h
    simpa using this
  · have := (semaphore_enter_leave_spec (⟨some 1, some 0, [7, 9]⟩ : SemState ℕ) 5 0
      rfl).2.2.1 7 [9] rfl
    simpa using this

/-! ## Theorems: semaphore invariant and factory validation -/

/-- C6 counterexample: the invariant `queue non-empty ⇒ available == 0` is
NOT preserved by `semaphoreSize`. From the state with size 1, no slot free
and one queued callback (which satisfies the invariant), resizing to 2 makes
`available = 1` while the queue is still non-empty. -/
theorem semaphore_resize_invariant_cex :
    semInv (⟨some 1, some 0, [0]⟩ : SemState ℕ) ∧
    ¬ semInv (semaphoreSize (some 2) (⟨some 1, some 0, [0]⟩ : SemState ℕ)).1 := by
  constructor
  · intro hq
    rfl
  · intro h
    have := h (by simp [semaphoreSize])
    simp [semaphoreSize] at this
    exact absurd this (by norm_num)

/-- C6 (amended): starting from a state whose `available` is a non-negative
number and which satisfies the invariant `queue non-empty ⇒ available == 0`,
the invariant is preserved by `enterSemaphore` and by `leaveSemaphore`;
`semaphoreSize` preserves it whenever the queue is empty. -/
theorem semaphore_invariant_preserved {α : Type} (s : SemState α) (fn : α) (a : ℚ)
    (ha : s._avail = some a) (hnn : 0 ≤ a) (hinv : semInv s) :
    semInv (enterSemaphore fn s).1 ∧
    semInv (leaveSemaphore s).1 ∧
    (∀ n, s._queued = [] → semInv (semaphoreSize n s).1) := by
  refine ⟨?_, ?_, ?_⟩
  · by_cases hpos : 0 < a
    · -- a slot was free, so by the invariant the queue was (and stays) empty
      have hqe : s._queued = [] := by
        by_contra hne
        have h0 := hinv hne
        rw [ha] at h0
        injection h0 with h0
        rw [h0] at hpos
        exact absurd hpos (by norm_num)
      simp [semInv, enterSemaphore, availPos, ha, hpos, hqe]
    · -- no slot free: `available` is exactly 0, and stays 0 while we queue
      have ha0 : a = 0 := le_antisymm (not_lt.mp hpos) hnn
      subst ha0
      intro _
      simp [enterSemaphore, availPos, ha]
  · cases hq : s._queued with
    | nil =>
      intro hq'
      simp [leaveSemaphore, hq] at hq'
    | cons f rest =>
      intro hq'
      simp [leaveSemaphore, hq] at hq' ⊢
      exact hinv (by simp [hq])
  · intro n hq
    cases n with
    | none => simp [semInv, semaphoreSize, hq]
    | some k =>
      by_cases hk : k = 0
      · simp [semInv, semaphoreSize, hk, hq]
      · simp [semInv, semaphoreSize, hk, hq]

/-- Witness for C6 (amended) at a concrete state: with one slot free and an
empty queue, entering keeps the invariant. -/
theorem semaphore_invariant_preserved_witness :
    semInv (enterSemaphore 3 (⟨some 2, some 2, []⟩ : SemState ℕ)).1 ∧
    semInv (leaveSemaphore (⟨some 2, some 2, []⟩ : SemState ℕ)).1 :=
  ⟨(semaphore_invariant_preserved (⟨some 2, some 2, []⟩ : SemState ℕ) 3 2 rfl
      (by norm_num) (by intro h; exact absurd rfl h)).1,
   (semaphore_invariant_preserved (⟨some 2, some 2, []⟩ : SemState ℕ) 3 2 rfl
      (by norm_num) (by intro h; exact absurd rfl h)).2.1⟩

/-- C8 counterexample: `1/2` is a positive number, yet `maxConcurrency(1/2)`
throws the validation error on a fresh (never-applied) state, because the
code checks `value < 1`, not `value ≤ 0`. -/
theorem maxConcurrency_positive_cex :
    isNumber (JSVal.num (1/2)) = true ∧ (0 : ℚ) < 1/2 ∧
    (maxConcurrency (JSVal.num (1/2)) (⟨none, none, []⟩ : SemState ℕ)).1 =
      .validationError := by
  refine ⟨rfl, by norm_num, ?_⟩
  simp [maxConcurrency, isNumber, jsLtOne]
  norm_num

/-- C8 (amended): on a fresh state, `maxConcurrency(value)` throws the
validation error exactly when `value` is not a number or is a number
less than 1; for every numeric capacity ≥ 1 it succeeds and returns the
mod. -/
theorem maxConcurrency_validation {α : Type} (v : JSVal) (s : SemState α)
    (hfresh : s._size = none) :
    ((maxConcurrency v s).1 = .validationError ↔
      (isNumber v = false ∨ ∃ q, v = .num q ∧ q < 1)) ∧
    (∀ q : ℚ, v = .num q → 1 ≤ q → (maxConcurrency v s).1 = .ok) := by
  constructor
  · constructor
    · intro h
      by_cases hv : !(isNumber v) || jsLtOne v
      · rcases v with q | _
        · simp [jsLtOne, isNumber] at hv
          exact Or.inr ⟨q, rfl, hv⟩
        · exact Or.inl rfl
      · exfalso
        simp [maxConcurrency, hv, semaphoreSize, hfresh] at h
    · intro h
      rcases h with h | ⟨q, rfl, hq⟩
      · have : isNumber v = false := h
        simp [maxConcurrency, this]
      · simp [maxConcurrency, isNumber, jsLtOne, hq]
  · intro q hv hq
    subst hv
    have h1 : jsLtOne (JSVal.num q) = false := by
      simp [jsLtOne]; linarith
    simp [maxConcurrency, isNumber, h1, semaphoreSize, hfresh]

/-- Witness for C8 (amended) at concrete inputs: on a fresh state,
`maxConcurrency(2)` succeeds and `maxConcurrency(other)` throws. -/
theorem maxConcurrency_validation_witness :
    (maxConcurrency (JSVal.num 2) (⟨none, none, []⟩ : SemState ℕ)).1 = .ok ∧
    (maxConcurrency JSVal.other (⟨none, none, []⟩ : SemState ℕ)).1 =
      .validationError :=
  ⟨(maxConcurrency_validation (JSVal.num 2) (⟨none, none, []⟩ : SemState ℕ)
      rfl).2 2 rfl (by norm_num),
   (maxConcurrency_validation JSVal.other (⟨none, none, []⟩ : SemState ℕ)
      rfl).1.mpr (Or.inl rfl)⟩

/-- C9: on a fresh state (size still `null`), a first application with a
numeric capacity ≥ 1 succeeds and sets the semaphore size to that capacity;
a second application (with any numeric capacity ≥ 1) then throws the
configuration error and leaves the state unchanged. -/
theorem maxConcurrency_single_application {α : Type} (q q' : ℚ) (s : SemState α)
    (hfresh : s._size = none) (h1 : 1 ≤ q) (h2 : 1 ≤ q') :
    (maxConcurrency (JSVal.num q) s).1 = .ok ∧
    (maxConcurrency (JSVal.num q) s).2._size = some q ∧
    (maxConcurrency (JSVal.num q') (maxConcurrency (JSVal.num q) s).2).1 =
      .configurationError ∧
    (maxConcurrency (JSVal.num q') (maxConcurrency (JSVal.num q) s).2).2 =
      (maxConcurrency (JSVal.num q) s).2 := by
  have hq : jsLtOne (JSVal.num q) = false := by simp [jsLtOne]; linarith
  have hq' : jsLtOne (JSVal.num q') = false := by simp [jsLtOne]; linarith
  have hqne : q ≠ 0 := by intro h; rw [h] at h1; exact absurd h1 (by norm_num)
  have hfirst : (maxConcurrency (JSVal.num q) s).2._size = some q := by
    simp [maxConcurrency, isNumber, hq, semaphoreSize, hfresh, toNum, hqne]
  refine ⟨?_, hfirst, ?_, ?_⟩
  · simp [maxConcurrency, isNumber, hq, semaphoreSize, hfresh]
  · revert hfirst
    generalize (maxConcurrency (JSVal.num q) s).2 = s1
    intro hfirst
    simp [maxConcurrency, isNumber, hq', semaphoreSize, hfirst]
  · revert hfirst
    generalize (maxConcurrency (JSVal.num q) s).2 = s1
    intro hfirst
    simp [maxConcurrency, isNumber, hq', semaphoreSize, hfirst]

/-- Witness for C9 at concrete inputs: first application of capacity 2
succeeds, the repeat application throws the configuration error. -/
theorem maxConcurrency_single_application_witness :
    (maxConcurrency (JSVal.num 2) (⟨none, none, []⟩ : SemState ℕ)).1 = .ok ∧
    (maxConcurrency (JSVal.num 3)
      (maxConcurrency (JSVal.num 2) (⟨none, none, []⟩ : SemState ℕ)).2).1 =
      .configurationError :=
  ⟨(maxConcurrency_single_application 2 3 (⟨none, none, []⟩ : SemState ℕ)
      rfl (by norm_num) (by norm_num)).1,
   (maxConcurrency_single_application 2 3 (⟨none, none, []⟩ : SemState ℕ)
      rfl (by norm_num) (by norm_num)).2.2.1⟩

/-! ## Helper lemmas about the world model -/

theorem coEnterDispatch_sem (w : World) (i : ℕ) (ev : EV) :
    (coEnterDispatch w i ev).sem = w.sem := by
  unfold coEnterDispatch
  split <;> simp [innerEnter]

theorem coEnterDispatch_coHeap (w : World) (i : ℕ) (ev : EV) :
    (coEnterDispatch w i ev).coHeap = w.coHeap := by
  unfold coEnterDispatch
  split <;> simp [innerEnter]

theorem coEnterDispatch_ctxHeap (w : World) (i : ℕ) (ev : EV) :
    (coEnterDispatch w i ev).ctxHeap = w.ctxHeap := by
  unfold coEnterDispatch
  split <;> simp [innerEnter]

theorem coEnterDispatch_innerAcq (w : World) (i : ℕ) (ev : EV) :
    (coEnterDispatch w i ev).innerAcq = w.innerAcq := by
  unfold coEnterDispatch
  split <;> simp [innerEnter]

theorem coEnterDispatch_innerReleaseLog (w : World) (i : ℕ) (ev : EV) :
    (coEnterDispatch w i ev).innerReleaseLog = w.innerReleaseLog := by
  unfold coEnterDispatch
  split <;> simp [innerEnter]

/-- `runPending` never touches the semaphore state, appends exactly its
acquisition arguments to the inner-acquire log, and never disposes of a
coroutine. -/
theorem runPending_frame (w : World) (p : Pending) :
    (runPending w p).sem = w.sem ∧
    (runPending w p).innerAcq = w.innerAcq ++ [p.args] ∧
    (runPending w p).innerReleaseLog = w.innerReleaseLog := by
  unfold runPending
  refine ⟨?_, ?_, ?_⟩ <;>
    simp [coEnterDispatch_sem, coEnterDispatch_innerAcq,
      coEnterDispatch_innerReleaseLog, innerAcquireCoro, World.setCo]

/-- `runPending` leaves the `inSemaphore` marker of every previously
allocated coroutine unchanged: it only sets the marker on the freshly
acquired coroutine. -/
theorem runPending_inSem_lt (w : World) (p : Pending) (i : ℕ)
    (hi : i < w.coNext) :
    ((runPending w p).coObj i).inSemaphore = (w.coObj i).inSemaphore := by
  have hic : i ≠ w.coNext := Nat.ne_of_lt hi
  unfold runPending
  by_cases hip : i = p.coId
  · subst hip
    simp [World.coObj, coEnterDispatch_coHeap, innerAcquireCoro, World.setCo, hic]
  · simp [World.coObj, coEnterDispatch_coHeap, innerAcquireCoro, World.setCo,
      hic, hip]

/-- The detailed effect of the semaphore callback (lines 40-57) on the
object graph, for a placeholder allocated before the call: the real
coroutine is allocated fresh, shares the placeholder's context reference,
the placeholder's `enter`/`leave` are rebound to it, it is marked
`inSemaphore`, and its `enter` is invoked with the captured pair. -/
theorem runPending_binds (w : World) (p : Pending) (hpc : p.coId < w.coNext) :
    ((runPending w p).coObj w.coNext).contextRef = (w.coObj p.coId).contextRef ∧
    ((runPending w p).coObj p.coId).enterT = .realE w.coNext ∧
    ((runPending w p).coObj p.coId).leaveT = .realE w.coNext ∧
    ((runPending w p).coObj p.coId).contextRef = (w.coObj p.coId).contextRef ∧
    ((runPending w p).coObj w.coNext).inSemaphore = true ∧
    (runPending w p).innerEnterLog = w.innerEnterLog ++ [(w.coNext, p.ev)] ∧
    (runPending w p).ctxHeap = fun j => if j = w.ctxNext then [] else w.ctxHeap j := by
  have hne : p.coId ≠ w.coNext := Nat.ne_of_lt hpc
  unfold runPending coEnterDispatch
  refine ⟨?_, ?_, ?_, ?_, ?_, ?_, ?_⟩ <;>
    simp [World.coObj, World.setCo, innerAcquireCoro, innerEnter, hne]

theorem lookup_ctxSetKey (c : Ctx) (k : String) (v : Val) :
    (ctxSetKey c k v).lookup k = some v := by
  induction c with
  | nil => simp [ctxSetKey]
  | cons hd tl ih =>
    rcases hd with ⟨k', v'⟩
    by_cases hk : k' = k
    · simp [ctxSetKey, hk]
    · have hk2 : (k == k') = false := beq_eq_false_iff_ne.mpr fun h => hk h.symm
      simp [ctxSetKey, hk, List.lookup, hk2, ih]

/-- Mutating a key through one coroutine handle is visible through any
other handle whose `contextRef` is the same object. -/
theorem coCtxSet_get_shared (w : World) (i j : ℕ) (k : String) (v : Val)
    (h : (w.coObj i).contextRef = (w.coObj j).contextRef) :
    coCtxGet (coCtxSet w i k v) j k = some v := by
  have h' : (w.coHeap i).contextRef = (w.coHeap j).contextRef := h
  simp [coCtxGet, coCtxSet, World.coObj, h', lookup_ctxSetKey]

theorem leaveSemaphoreW_empty (w : World) (hq : w.sem._queued = []) :
    leaveSemaphoreW w =
      { w with sem := { w.sem with _avail := some (w.sem._avail.getD 0 + 1) } } := by
  simp [leaveSemaphoreW, leaveSemaphore, hq]

theorem leaveSemaphoreW_cons (w : World) (p : Pending) (rest : List Pending)
    (hq : w.sem._queued = p :: rest) :
    leaveSemaphoreW w =
      runPending { w with sem := { w.sem with _queued := rest } } p := by
  simp [leaveSemaphoreW, leaveSemaphore, hq]

/-- The semaphore-leaving half of `releaseCoro`, for a world `w1` in which
the marker has already been cleared: effect of
`leaveSemaphore(); pipeline.releaseCoro(...)`. -/
theorem release_marked_aux (w1 : World) (coId : ℕ) (hco : coId < w1.coNext)
    (hfalse : (w1.coObj coId).inSemaphore = false) :
    ((innerReleaseCoro (leaveSemaphoreW w1) coId).coObj coId).inSemaphore = false ∧
    (innerReleaseCoro (leaveSemaphoreW w1) coId).innerReleaseLog =
      w1.innerReleaseLog ++ [coId] ∧
    (w1.sem._queued = [] →
      (innerReleaseCoro (leaveSemaphoreW w1) coId).sem =
        { w1.sem with _avail := some (w1.sem._avail.getD 0 + 1) }) ∧
    (∀ p rest, w1.sem._queued = p :: rest →
      (innerReleaseCoro (leaveSemaphoreW w1) coId).sem =
        { w1.sem with _queued := rest } ∧
      (innerReleaseCoro (leaveSemaphoreW w1) coId).innerAcq =
        w1.innerAcq ++ [p.args]) := by
  cases hq : w1.sem._queued with
  | nil =>
    rw [leaveSemaphoreW_empty w1 hq]
    refine ⟨?_, ?_, ?_, ?_⟩
    · simpa [innerReleaseCoro, World.coObj] using hfalse
    · simp [innerReleaseCoro]
    · intro _
      simp [innerReleaseCoro]
    · intro p rest h
      simp at h
  | cons p rest =>
    rw [leaveSemaphoreW_cons w1 p rest hq]
    have hf := runPending_frame { w1 with sem := { w1.sem with _queued := rest } } p
    have hin := runPending_inSem_lt { w1 with sem := { w1.sem with _queued := rest } }
      p coId hco
    refine ⟨?_, ?_, ?_, ?_⟩
    · simpa [innerReleaseCoro, World.coObj] using hin.trans hfalse
    · simp [innerReleaseCoro, hf.2.2]
    · intro h
      simp at h
    · intro p' rest' h
      injection h with h1 h2
      subst h1
      subst h2
      constructor
      · simp [innerReleaseCoro, hf.1]
      · simp [innerReleaseCoro, hf.2.1]

/-! ## Theorems: the mod's acquire/release path -/

/-- C2: while a coroutine is already active, the mod's `acquireCoro`
delegates to the inner pipeline's `acquireCoro` with the same arguments and
returns its result, and the semaphore state is completely unchanged. -/
theorem acquireCoro_nested_delegates (w : World) (args : AcqArgs) (c : ℕ)
    (h : w.current = some c) :
    acquireCoro w args = innerAcquireCoro w args ∧
    (acquireCoro w args).2.sem = w.sem := by
  have hs : w.current.isSome = true := by simp [h]
  constructor
  · simp [acquireCoro, hs]
  · simp [acquireCoro, hs, innerAcquireCoro]

/-- Witness for C2: in a concrete world with coroutine 0 current, the mod's
`acquireCoro` is the inner `acquireCoro` and the semaphore is untouched. -/
theorem acquireCoro_nested_delegates_witness :
    acquireCoro { w0 with current := some 0 } args0 =
      innerAcquireCoro { w0 with current := some 0 } args0 ∧
    (acquireCoro { w0 with current := some 0 } args0).2.sem =
      { w0 with current := some 0 }.sem :=
  acquireCoro_nested_delegates { w0 with current := some 0 } args0 0 rfl

/-- C3: a top-level `acquireCoro` (no coroutine current) synchronously
returns a fresh placeholder coroutine with an empty context bag, leaving the
semaphore untouched, calling no inner `acquireCoro`, and starting no body
execution; its `enter` target is the placeholder closure, so the semaphore
is entered only when that `enter` is later invoked. -/
theorem acquireCoro_topLevel_placeholder (w : World) (args : AcqArgs)
    (h : w.current = none) :
    (acquireCoro w args).1 = w.coNext ∧
    ((acquireCoro w args).2.coObj w.coNext).contextRef = w.ctxNext ∧
    (acquireCoro w args).2.ctxHeap w.ctxNext = [] ∧
    ((acquireCoro w args).2.coObj w.coNext).enterT =
      ETarget.placeholderE w.coNext args ∧
    (acquireCoro w args).2.sem = w.sem ∧
    (acquireCoro w args).2.innerAcq = w.innerAcq ∧
    (acquireCoro w args).2.innerEnterLog = w.innerEnterLog ∧
    (∀ ev, co_enter (acquireCoro w args).2 w.coNext ev =
      enterSemaphoreW (acquireCoro w args).2 ⟨w.coNext, args, ev⟩) := by
  have hs : w.current.isSome = false := by simp [h]
  refine ⟨?_, ?_, ?_, ?_, ?_, ?_, ?_, ?_⟩ <;>
    simp [acquireCoro, hs, World.coObj, co_enter]

/-- Witness for C3 at the concrete fresh world `w0`. -/
theorem acquireCoro_topLevel_placeholder_witness :
    (acquireCoro w0 args0).1 = w0.coNext ∧
    (acquireCoro w0 args0).2.ctxHeap w0.ctxNext = [] ∧
    ((acquireCoro w0 args0).2.coObj w0.coNext).enterT =
      ETarget.placeholderE w0.coNext args0 ∧
    (acquireCoro w0 args0).2.sem = w0.sem ∧
    (acquireCoro w0 args0).2.innerAcq = w0.innerAcq :=
  ⟨(acquireCoro_topLevel_placeholder w0 args0 rfl).1,
   (acquireCoro_topLevel_placeholder w0 args0 rfl).2.2.1,
   (acquireCoro_topLevel_placeholder w0 args0 rfl).2.2.2.1,
   (acquireCoro_topLevel_placeholder w0 args0 rfl).2.2.2.2.1,
   (acquireCoro_topLevel_placeholder w0 args0 rfl).2.2.2.2.2.1⟩

/-- C4: when a top-level placeholder's `enter(error, value)` obtains a slot
(one is free), the mod acquires the real coroutine from the inner pipeline,
the real coroutine's context is the placeholder's context object with every
pre-`enter` entry intact, the placeholder's `enter` and `leave` are rebound
to the real coroutine's, the real coroutine is marked semaphore-entered, and
the real `enter` is immediately invoked with the same `(error, value)`. -/
theorem placeholder_enter_binds_real (w : World) (pId : ℕ) (args : AcqArgs) (ev : EV)
    (hp : (w.coObj pId).enterT = .placeholderE pId args)
    (hpId : pId < w.coNext)
    (hctx : (w.coObj pId).contextRef ≠ w.ctxNext)
    (hav : availPos w.sem._avail = true) :
    (co_enter w pId ev).innerAcq = w.innerAcq ++ [args] ∧
    ((co_enter w pId ev).coObj w.coNext).contextRef = (w.coObj pId).contextRef ∧
    (co_enter w pId ev).ctxHeap ((w.coObj pId).contextRef) =
      w.ctxHeap ((w.coObj pId).contextRef) ∧
    ((co_enter w pId ev).coObj pId).enterT = ETarget.realE w.coNext ∧
    ((co_enter w pId ev).coObj pId).leaveT = ETarget.realE w.coNext ∧
    ((co_enter w pId ev).coObj w.coNext).inSemaphore = true ∧
    (co_enter w pId ev).innerEnterLog = w.innerEnterLog ++ [(w.coNext, ev)] := by
  have hstep : co_enter w pId ev =
      runPending
        { w with sem := { w.sem with _avail := some (w.sem._avail.getD 0 - 1) } }
        ⟨pId, args, ev⟩ := by
    simp [co_enter, hp, enterSemaphoreW, enterSemaphore, hav]
  have hb := runPending_binds
    { w with sem := { w.sem with _avail := some (w.sem._avail.getD 0 - 1) } }
    ⟨pId, args, ev⟩ hpId
  have hf := runPending_frame
    { w with sem := { w.sem with _avail := some (w.sem._avail.getD 0 - 1) } }
    ⟨pId, args, ev⟩
  rw [hstep]
  refine ⟨hf.2.1, hb.1, ?_, hb.2.1, hb.2.2.1, hb.2.2.2.2.1, hb.2.2.2.2.2.1⟩
  rw [hb.2.2.2.2.2.2]
  simp [hctx]

/-- Witness for C4 at the concrete placeholder world `wP` (coroutine 0 is
the placeholder, one slot is free): the real coroutine is coroutine 1,
marked, and its `enter` receives the captured pair. -/
theorem placeholder_enter_binds_real_witness :
    availPos wP.sem._avail = true ∧
    (co_enter wP 0 ev0).innerEnterLog = wP.innerEnterLog ++ [(wP.coNext, ev0)] ∧
    ((co_enter wP 0 ev0).coObj wP.coNext).inSemaphore = true :=
  ⟨by decide,
   (placeholder_enter_binds_real wP 0 args0 ev0 (by decide) (by decide)
      (by decide) (by decide)).2.2.2.2.2.2,
   (placeholder_enter_binds_real wP 0 args0 ev0 (by decide) (by decide)
      (by decide) (by decide)).2.2.2.2.2.1⟩

/-- C5: `releaseCoro` on a marked coroutine clears the marker, then frees
exactly one slot (increment on an empty queue, direct hand-off to the oldest
queued entry otherwise, in either case unconditionally), then delegates
disposal to the inner pipeline; a repeated release of the same coroutine
leaves the semaphore untouched, as does releasing an unmarked coroutine. -/
theorem releaseCoro_semaphore_discipline (w : World) (coId : ℕ)
    (hco : coId < w.coNext) :
    ((w.coObj coId).inSemaphore = true →
      ((releaseCoro w coId).coObj coId).inSemaphore = false ∧
      (releaseCoro w coId).innerReleaseLog = w.innerReleaseLog ++ [coId] ∧
      (w.sem._queued = [] →
        (releaseCoro w coId).sem =
          { w.sem with _avail := some (w.sem._avail.getD 0 + 1) }) ∧
      (∀ p rest, w.sem._queued = p :: rest →
        (releaseCoro w coId).sem = { w.sem with _queued := rest } ∧
        (releaseCoro w coId).innerAcq = w.innerAcq ++ [p.args]) ∧
      (releaseCoro (releaseCoro w coId) coId).sem = (releaseCoro w coId).sem) ∧
    ((w.coObj coId).inSemaphore = false →
      (releaseCoro w coId).sem = w.sem ∧
      (releaseCoro w coId).coObj coId = w.coObj coId ∧
      (releaseCoro w coId).innerReleaseLog = w.innerReleaseLog ++ [coId]) := by
  have hunmark : ∀ w' : World, (w'.coObj coId).inSemaphore = false →
      (releaseCoro w' coId).sem = w'.sem ∧
      (releaseCoro w' coId).coObj coId = w'.coObj coId ∧
      (releaseCoro w' coId).innerReleaseLog = w'.innerReleaseLog ++ [coId] := by
    intro w' h
    have h' : (w'.coHeap coId).inSemaphore = false := h
    refine ⟨?_, ?_, ?_⟩ <;> simp [releaseCoro, World.coObj, h', innerReleaseCoro]
  constructor
  · intro hmark
    have hrel : releaseCoro w coId =
        innerReleaseCoro
          (leaveSemaphoreW (w.setCo coId { w.coObj coId with inSemaphore := false }))
          coId := by
      simp [releaseCoro, hmark]
    have haux := release_marked_aux
      (w.setCo coId { w.coObj coId with inSemaphore := false }) coId hco
      (by simp [World.setCo, World.coObj])
    have hf1 : ((releaseCoro w coId).coObj coId).inSemaphore = false := by
      rw [hrel]
      exact haux.1
    refine ⟨hf1, ?_, ?_, ?_, ?_⟩
    · rw [hrel]
      exact haux.2.1
    · intro hq
      rw [hrel]
      exact haux.2.2.1 hq
    · intro p rest hq
      rw [hrel]
      exact haux.2.2.2 p rest hq
    · exact (hunmark (releaseCoro w coId) hf1).1
  · intro h
    exact hunmark w h

/-- Witness for C5 at the concrete bound world `wB` (coroutine 1 is the
marked real coroutine, queue empty): releasing clears the marker and
increments `available`. -/
theorem releaseCoro_semaphore_discipline_witness :
    (wB.coObj 1).inSemaphore = true ∧
    ((releaseCoro wB 1).coObj 1).inSemaphore = false ∧
    (releaseCoro wB 1).sem =
      { wB.sem with _avail := some (wB.sem._avail.getD 0 + 1) } :=
  ⟨by decide,
   ((releaseCoro_semaphore_discipline wB 1 (by decide)).1 (by decide)).1,
   ((releaseCoro_semaphore_discipline wB 1 (by decide)).1 (by decide)).2.2.1
     (by decide)⟩

/-- C10: after the placeholder is bound, the real coroutine's `context` is
the very same object as the placeholder's (`c.context = co.context` is a
reference assignment), so a key written through either handle is read back
through the other. -/
theorem bound_context_shared (w : World) (pId : ℕ) (args : AcqArgs) (ev : EV)
    (hp : (w.coObj pId).enterT = .placeholderE pId args)
    (hpId : pId < w.coNext)
    (hav : availPos w.sem._avail = true) :
    ((co_enter w pId ev).coObj w.coNext).contextRef =
      ((co_enter w pId ev).coObj pId).contextRef ∧
    (∀ k v, coCtxGet (coCtxSet (co_enter w pId ev) pId k v) w.coNext k = some v) ∧
    (∀ k v, coCtxGet (coCtxSet (co_enter w pId ev) w.coNext k v) pId k = some v) := by
  have hstep : co_enter w pId ev =
      runPending
        { w with sem := { w.sem with _avail := some (w.sem._avail.getD 0 - 1) } }
        ⟨pId, args, ev⟩ := by
    simp [co_enter, hp, enterSemaphoreW, enterSemaphore, hav]
  have hb := runPending_binds
    { w with sem := { w.sem with _avail := some (w.sem._avail.getD 0 - 1) } }
    ⟨pId, args, ev⟩ hpId
  have href : ((co_enter w pId ev).coObj w.coNext).contextRef =
      ((co_enter w pId ev).coObj pId).contextRef := by
    rw [hstep]
    exact hb.1.trans hb.2.2.2.1.symm
  refine ⟨href, ?_, ?_⟩
  · intro k v
    exact coCtxSet_get_shared (co_enter w pId ev) pId w.coNext k v href.symm
  · intro k v
    exact coCtxSet_get_shared (co_enter w pId ev) w.coNext pId k v href

/-- Witness for C10 at the concrete placeholder world `wP`: a key written
through the placeholder handle is read back through the real coroutine. -/
theorem bound_context_shared_witness :
    ((co_enter wP 0 ev0).coObj wP.coNext).contextRef =
      ((co_enter wP 0 ev0).coObj 0).contextRef ∧
    coCtxGet (coCtxSet (co_enter wP 0 ev0) 0 kx v7) wP.coNext kx = some v7 :=
  ⟨(bound_context_shared wP 0 args0 ev0 (by decide) (by decide) (by decide)).1,
   (bound_context_shared wP 0 args0 ev0 (by decide) (by decide) (by decide)).2.1
     kx v7⟩

/-! ## Theorems: the async-iterator protocol -/

/-- C7: over a body yielding 111, 222, 333 and then returning the done
string, five successive `next()` invocations deliver, in order,
`(null, {done:false,value:111})`, `(null, {done:false,value:222})`,
`(null, {done:false,value:333})`, `(null, {done:true,value:'done'})`, and
finally the IterationExhaustedError through the completion channel. -/
theorem iterable_next_sequence :
    iterRun doneV ⟨yields111, false⟩ 5 =
      [(none, some (false, Val.vnum 111)),
       (none, some (false, Val.vnum 222)),
       (none, some (false, Val.vnum 333)),
       (none, some (true, doneV)),
       (some IterErr.iterationExhausted, none)] := by
  decide

end AsyncAwait
